import Mathlib

/-!
Shallow embedding of the smoothed metric tracker of simplecv
(src/simplecv/util/logger.py): the class `SmoothedValue` and the metrics
registry `Logger.smoothvalues` / `Logger.create_or_get_smoothvalues`.

Scalar float observations are modelled as exact rationals. Results of
the query methods are modelled by `PyResult`, which distinguishes an
ordinary float value, the silent NaN that `np.mean` / `np.median` return
on an empty collection, and a raised Python `ZeroDivisionError`.
-/

set_option autoImplicit false

/-- Result of calling one of the query methods: a finite value, the NaN
silently returned by numpy on an empty collection, or a raised
`ZeroDivisionError` exception. -/
inductive PyResult where
  | ok (q : ℚ)
  | nan
  | zeroDivisionError
deriving DecidableEq

/-- State of a `SmoothedValue` object (logger.py):
`deque` models `collections.deque(maxlen=window_size)`, `series` the
unbounded list of every value added, `total` the running sum and `count`
the running count of all values ever added. -/
structure SmoothedValue where
  window_size : ℕ
  deque : List ℚ
  series : List ℚ
  total : ℚ
  count : ℕ
deriving DecidableEq

/-- Translation of `SmoothedValue.__init__(self, window_size)`: empty deque
with the given maxlen, empty series, total 0.0, count 0. -/
def SmoothedValue.init (window_size : ℕ) : SmoothedValue :=
  { window_size := window_size, deque := [], series := [], total := 0, count := 0 }

/-- Translation of `collections.deque.append` on a deque with a `maxlen`
bound: the value is appended on the right and, if the bound is exceeded,
elements are discarded from the left until the length is back within
`maxlen`. -/
def dequeAppend (maxlen : ℕ) (d : List ℚ) (v : ℚ) : List ℚ :=
  let d2 := d ++ [v]
  if maxlen < d2.length then d2.drop (d2.length - maxlen) else d2

/-- Translation of `SmoothedValue.add_value(self, value)`: append to the
bounded deque and to the series, increment `count`, add to `total`. -/
def SmoothedValue.add_value (s : SmoothedValue) (v : ℚ) : SmoothedValue :=
  { s with
    deque := dequeAppend s.window_size s.deque v
    series := s.series ++ [v]
    count := s.count + 1
    total := s.total + v }

/-- Model of `np.mean` over exact rationals: the sum divided by the length
for a non-empty collection; on an empty collection numpy returns NaN (with
a runtime warning, not an exception). -/
def npMean (l : List ℚ) : PyResult :=
  if l.length = 0 then .nan else .ok (l.sum / l.length)

/-- Model of `np.median` over exact rationals: sort ascending, take the
middle element for odd length, the average of the two middle elements for
even length; on an empty collection numpy returns NaN (with a runtime
warning, not an exception). -/
def npMedian (l : List ℚ) : PyResult :=
  if l.length = 0 then .nan
  else
    let srt := l.insertionSort (· ≤ ·)
    if l.length % 2 = 1 then .ok (srt.getD (l.length / 2) 0)
    else .ok ((srt.getD (l.length / 2 - 1) 0 + srt.getD (l.length / 2) 0) / 2)

/-- Translation of `SmoothedValue.get_median_value(self)`:
`np.median(self.deque)`. -/
def SmoothedValue.get_median_value (s : SmoothedValue) : PyResult :=
  npMedian s.deque

/-- Translation of `SmoothedValue.get_average_value(self)`:
`np.mean(self.deque)`. -/
def SmoothedValue.get_average_value (s : SmoothedValue) : PyResult :=
  npMean s.deque

/-- Translation of `SmoothedValue.get_global_average_value(self)`:
`self.total / self.count`; Python float division raises
`ZeroDivisionError` when `count` is 0. -/
def SmoothedValue.get_global_average_value (s : SmoothedValue) : PyResult :=
  if s.count = 0 then .zeroDivisionError else .ok (s.total / s.count)

/-- Sequence of `add_value` calls, left to right. -/
def addAll (s : SmoothedValue) (vs : List ℚ) : SmoothedValue :=
  vs.foldl SmoothedValue.add_value s

/-- Last `min w (length l)` elements of `l`. -/
def lastN (w : ℕ) (l : List ℚ) : List ℚ :=
  l.drop (l.length - w)

/-- Arithmetic mean of a list of rationals. -/
def listMean (l : List ℚ) : ℚ :=
  l.sum / l.length

/-- Translation of `get_average_value` as a call on the object state: the
method reads `self.deque`, computes `np.mean` of it, and returns; `self`
is not written, so the post-call state is the pre-call state. -/
def SmoothedValue.get_average_value_call (s : SmoothedValue) : PyResult × SmoothedValue :=
  (npMean s.deque, s)

/-- Translation of `get_median_value` as a call on the object state (no
write to `self`). -/
def SmoothedValue.get_median_value_call (s : SmoothedValue) : PyResult × SmoothedValue :=
  (npMedian s.deque, s)

/-- Translation of `get_global_average_value` as a call on the object state
(no write to `self`). -/
def SmoothedValue.get_global_average_value_call (s : SmoothedValue) : PyResult × SmoothedValue :=
  (if s.count = 0 then .zeroDivisionError else .ok (s.total / s.count), s)

/-- Lookup in an insertion-ordered association list (a Python dict whose
keys are unique). -/
def alookup {β : Type} : List (String × β) → String → Option β
  | [], _ => none
  | (k2, b) :: rest, k => if k2 = k then some b else alookup rest k

/-- Update of the value stored at a key, in place (the mutation performed
by calling a method on a dict entry). -/
def mapAssoc {β : Type} : List (String × β) → String → (β → β) → List (String × β)
  | [], _, _ => []
  | (k2, b) :: rest, k, f =>
    if k2 = k then (k2, f b) :: rest else (k2, b) :: mapAssoc rest k f

/-- State of a `Logger` (logger.py): the `smoothvalues` dict, an
insertion-ordered mapping from metric name to its tracker. The logging
and tensorboard fields play no part in the metric arithmetic. -/
structure Logger where
  smoothvalues : List (String × SmoothedValue)
deriving DecidableEq

/-- Translation of `Logger.__init__`: `self.smoothvalues = dict()`. -/
def Logger.init : Logger :=
  { smoothvalues := [] }

/-- One iteration of the loop in `create_or_get_smoothvalues`: if the key
is absent, `self.smoothvalues[key] = SmoothedValue(100)` (inserted at the
end, Python dicts preserve insertion order); then
`self.smoothvalues[key].add_value(value)`. -/
def processPair (store : List (String × SmoothedValue)) (kv : String × ℚ) :
    List (String × SmoothedValue) :=
  let store2 :=
    if (alookup store kv.1).isSome then store
    else store ++ [(kv.1, SmoothedValue.init 100)]
  mapAssoc store2 kv.1 (fun sv => sv.add_value kv.2)

/-- Translation of `Logger.create_or_get_smoothvalues(self, loss_dict)`:
loop over the input pairs, then return the dict comprehension mapping
every key of `self.smoothvalues` (the whole dict, not only the keys of
`loss_dict`) to `smoothvalue.get_average_value()`. Returns the updated
logger and the snapshot. -/
def Logger.create_or_get_smoothvalues (lg : Logger) (loss_dict : List (String × ℚ)) :
    Logger × List (String × PyResult) :=
  let store := loss_dict.foldl processPair lg.smoothvalues
  ({ smoothvalues := store },
   store.map (fun kv => (kv.1, kv.2.get_average_value)))

/-- Sequence of `create_or_get_smoothvalues` calls, keeping the logger. -/
def runCalls (lg : Logger) (calls : List (List (String × ℚ))) : Logger :=
  calls.foldl (fun l c => (l.create_or_get_smoothvalues c).1) lg

/-- Appending to a deque that holds the last `w` elements of `l` yields the
last `w` elements of `l ++ [v]`. -/
theorem dequeAppend_lastN (w : ℕ) (l : List ℚ) (v : ℚ) :
    dequeAppend w (lastN w l) v = lastN w (l ++ [v]) := by
  unfold dequeAppend lastN
  simp only [List.length_append, List.length_drop, List.length_singleton]
  rcases Nat.lt_or_ge l.length w with hw | hw
  · have h1 : l.length - w = 0 := by omega
    have h2 : l.length + 1 - w = 0 := by omega
    rw [if_neg (by omega)]
    simp [h1, h2]
  · rcases Nat.eq_zero_or_pos w with hw0 | hw1
    · subst hw0
      rw [if_pos (by omega)]
      simp
    · have hkey : l.length - (l.length - w) = w := by omega
      rw [if_pos (by omega)]
      rw [hkey]
      rw [List.drop_append_eq_append_drop, List.drop_append_eq_append_drop]
      rw [List.drop_drop]
      simp only [List.length_drop, hkey, List.length_singleton]
      have e1 : l.length - w + (w + 1 - w) = l.length + 1 - w := by omega
      have e2 : w + 1 - w - w = 1 - w := by omega
      have e3 : 1 - w = 0 := by omega
      have e4 : l.length + 1 - w - l.length = 0 := by omega
      rw [e1, e2, e3, e4]

/-- Unfolding of `addAll` on a snoc list. -/
theorem addAll_append (s : SmoothedValue) (vs : List ℚ) (v : ℚ) :
    addAll s (vs ++ [v]) = (addAll s vs).add_value v := by
  simp [addAll, List.foldl_append]

/-- Adding values never changes the window capacity. -/
theorem addAll_window_size (s : SmoothedValue) (vs : List ℚ) :
    (addAll s vs).window_size = s.window_size := by
  induction vs using List.reverseRecOn with
  | nil => rfl
  | append_singleton xs x ih =>
    rw [addAll_append]
    simp [SmoothedValue.add_value, ih]

/-- Full characterisation of the state reached from a fresh tracker. -/
theorem addAll_state (w : ℕ) (vs : List ℚ) :
    (addAll (SmoothedValue.init w) vs).total = vs.sum ∧
    (addAll (SmoothedValue.init w) vs).count = vs.length ∧
    (addAll (SmoothedValue.init w) vs).series = vs ∧
    (addAll (SmoothedValue.init w) vs).deque = lastN w vs := by
  induction vs using List.reverseRecOn with
  | nil => simp [addAll, SmoothedValue.init, lastN]
  | append_singleton xs x ih =>
    obtain ⟨ht, hc, hs, hd⟩ := ih
    rw [addAll_append]
    have hw : (addAll (SmoothedValue.init w) xs).window_size = w := addAll_window_size ..
    refine ⟨?_, ?_, ?_, ?_⟩ <;>
      simp [SmoothedValue.add_value, ht, hc, hs, hd, hw, dequeAppend_lastN]

/-- Lookup after an in-place update at the same key. -/
theorem alookup_mapAssoc_self {β : Type} (s : List (String × β)) (k : String) (f : β → β) :
    alookup (mapAssoc s k f) k = (alookup s k).map f := by
  induction s with
  | nil => rfl
  | cons kv rest ih =>
    obtain ⟨k2, b⟩ := kv
    by_cases h : k2 = k
    · simp [mapAssoc, alookup, h]
    · simp [mapAssoc, alookup, h, ih]

/-- Lookup after an in-place update at a different key. -/
theorem alookup_mapAssoc_ne {β : Type} (s : List (String × β)) (k k2 : String) (f : β → β)
    (h : k2 ≠ k) : alookup (mapAssoc s k f) k2 = alookup s k2 := by
  induction s with
  | nil => rfl
  | cons kv rest ih =>
    obtain ⟨k3, b⟩ := kv
    by_cases h3 : k3 = k
    · subst h3
      have hne : k3 ≠ k2 := fun hh => h hh.symm
      simp [mapAssoc, alookup, hne]
    · simp [mapAssoc, alookup, h3, ih]

/-- Lookup in a concatenation tries the left part first. -/
theorem alookup_append {β : Type} (s t : List (String × β)) (k : String) :
    alookup (s ++ t) k = ((alookup s k).rec (alookup t k) fun b => some b) := by
  induction s with
  | nil => simp [alookup]
  | cons kv rest ih =>
    obtain ⟨k2, b⟩ := kv
    by_cases h : k2 = k
    · simp [alookup, h]
    · simp [alookup, h, ih]

/-- Effect of one loop iteration on the key it processes: the existing
tracker, or a fresh one of capacity 100, receives the value. -/
theorem processPair_lookup_self (store : List (String × SmoothedValue)) (k : String) (v : ℚ) :
    alookup (processPair store (k, v)) k =
      some (((alookup store k).getD (SmoothedValue.init 100)).add_value v) := by
  rcases h : alookup store k with _ | sv
  · simp [processPair, h, alookup_mapAssoc_self, alookup_append, alookup]
  · simp [processPair, h, alookup_mapAssoc_self]

/-- Effect of one loop iteration on any other key: none. -/
theorem processPair_lookup_ne (store : List (String × SmoothedValue)) (k k2 : String) (v : ℚ)
    (h : k2 ≠ k) : alookup (processPair store (k, v)) k2 = alookup store k2 := by
  by_cases hs : (alookup store k).isSome
  · simp [processPair, hs, alookup_mapAssoc_ne _ _ _ _ h]
  · rw [show processPair store (k, v)
        = mapAssoc (store ++ [(k, SmoothedValue.init 100)]) k
            (fun sv => sv.add_value v) by simp [processPair, hs]]
    rw [alookup_mapAssoc_ne _ _ _ _ h, alookup_append]
    rcases h2 : alookup store k2 with _ | b
    · have hne : k ≠ k2 := fun hh => h hh.symm
      simp [alookup, hne]
    · simp

/-- Keys not mentioned in the input are untouched by the loop. -/
theorem foldl_processPair_not_mem (input : List (String × ℚ))
    (store : List (String × SmoothedValue)) (k : String) (h : k ∉ input.map Prod.fst) :
    alookup (input.foldl processPair store) k = alookup store k := by
  induction input generalizing store with
  | nil => rfl
  | cons kv rest ih =>
    obtain ⟨k2, v⟩ := kv
    simp only [List.map_cons, List.mem_cons, not_or] at h
    rw [List.foldl_cons, ih _ h.2, processPair_lookup_ne _ _ _ _ h.1]

/-- Effect of the whole loop on a key of the input (keys pairwise
distinct, as in a Python dict). -/
theorem foldl_processPair_mem (input : List (String × ℚ))
    (store : List (String × SmoothedValue)) (k : String) (v : ℚ)
    (hnd : (input.map Prod.fst).Nodup) (hmem : (k, v) ∈ input) :
    alookup (input.foldl processPair store) k =
      some (((alookup store k).getD (SmoothedValue.init 100)).add_value v) := by
  induction input generalizing store with
  | nil => cases hmem
  | cons kv rest ih =>
    obtain ⟨k2, v2⟩ := kv
    simp only [List.map_cons, List.nodup_cons] at hnd
    rcases List.mem_cons.mp hmem with heq | hrest
    · obtain ⟨hk, hv⟩ := Prod.mk.injEq k v k2 v2 ▸ heq
      subst hk
      subst hv
      rw [List.foldl_cons,
        foldl_processPair_not_mem rest _ k hnd.1,
        processPair_lookup_self]
    · have hk : k ≠ k2 := by
        intro hkk
        subst hkk
        exact hnd.1 (List.mem_map_of_mem Prod.fst hrest)
      rw [List.foldl_cons, ih _ hnd.2 hrest, processPair_lookup_ne _ _ _ _ hk]

/-- Presence of a key after one loop iteration. -/
theorem processPair_isSome_iff (store : List (String × SmoothedValue)) (k2 : String) (v : ℚ)
    (k : String) :
    (alookup (processPair store (k2, v)) k).isSome
      ↔ (alookup store k).isSome ∨ k = k2 := by
  by_cases hk : k = k2
  · subst hk
    simp [processPair_lookup_self]
  · simp [processPair_lookup_ne _ _ _ _ hk, hk]

/-- Presence of a key after the whole loop. -/
theorem foldl_processPair_isSome_iff (input : List (String × ℚ))
    (store : List (String × SmoothedValue)) (k : String) :
    (alookup (input.foldl processPair store) k).isSome
      ↔ (alookup store k).isSome ∨ k ∈ input.map Prod.fst := by
  induction input generalizing store with
  | nil => simp
  | cons kv rest ih =>
    obtain ⟨k2, v⟩ := kv
    rw [List.foldl_cons, ih, processPair_isSome_iff]
    simp [or_assoc]

/-- Membership in the key list agrees with lookup success. -/
theorem mem_keys_iff_isSome {β : Type} (s : List (String × β)) (k : String) :
    k ∈ s.map Prod.fst ↔ (alookup s k).isSome := by
  induction s with
  | nil => simp [alookup]
  | cons kv rest ih =>
    obtain ⟨k2, b⟩ := kv
    by_cases h : k2 = k
    · simp [alookup, h]
    · have hne : k ≠ k2 := fun hh => h hh.symm
      simp [alookup, h, hne, ih]

/-- Lookup commutes with mapping a function over the stored values. -/
theorem alookup_map_value {β γ : Type} (s : List (String × β)) (f : β → γ) (k : String) :
    alookup (s.map fun kv => (kv.1, f kv.2)) k = (alookup s k).map f := by
  induction s with
  | nil => rfl
  | cons kv rest ih =>
    obtain ⟨k2, b⟩ := kv
    by_cases h : k2 = k <;> simp [alookup, h, ih]

/-- Presence of a key in the registry after a sequence of calls. -/
theorem runCalls_isSome_iff (calls : List (List (String × ℚ))) (lg : Logger) (k : String) :
    (alookup (runCalls lg calls).smoothvalues k).isSome
      ↔ (alookup lg.smoothvalues k).isSome ∨ ∃ c ∈ calls, k ∈ c.map Prod.fst := by
  induction calls generalizing lg with
  | nil => simp [runCalls]
  | cons c rest ih =>
    rw [show runCalls lg (c :: rest)
          = runCalls (lg.create_or_get_smoothvalues c).1 rest from rfl, ih]
    rw [show ((lg.create_or_get_smoothvalues c).1).smoothvalues
          = c.foldl processPair lg.smoothvalues from rfl]
    rw [foldl_processPair_isSome_iff]
    simp only [List.mem_cons]
    constructor
    · rintro (⟨h | h⟩ | ⟨c2, hc2, hk⟩)
      · exact Or.inl h
      · exact Or.inr ⟨c, Or.inl rfl, h⟩
      · exact Or.inr ⟨c2, Or.inr hc2, hk⟩
    · rintro (h | ⟨c2, hc2 | hc2, hk⟩)
      · exact Or.inl (Or.inl h)
      · exact Or.inl (Or.inr (hc2 ▸ hk))
      · exact Or.inr ⟨c2, hc2, hk⟩

/-- C1: for every window capacity W at least 1 and every non-empty sequence
of values added via `add_value` to a fresh `SmoothedValue`,
`get_average_value` returns the arithmetic mean of the last min(N, W)
values added. -/
theorem C1_windowed_average (w : ℕ) (vs : List ℚ) (hw : 1 ≤ w) (hvs : vs ≠ []) :
    (addAll (SmoothedValue.init w) vs).get_average_value
      = PyResult.ok (listMean (lastN w vs)) := by
  obtain ⟨-, -, -, hd⟩ := addAll_state w vs
  have hlen : 0 < vs.length := List.length_pos.mpr hvs
  have hne : ¬ (lastN w vs).length = 0 := by
    simp [lastN]
    omega
  simp [SmoothedValue.get_average_value, hd, npMean, hne, listMean]

/-- Witness for C1 at capacity 2 with values 1, 2, 3: the windowed average
is the mean of the last two values, 5/2. -/
theorem C1_witness :
    (1 ≤ 2 ∧ ([1, 2, 3] : List ℚ) ≠ []) ∧
    ((addAll (SmoothedValue.init 2) [1, 2, 3]).get_average_value
       = PyResult.ok (listMean (lastN 2 [1, 2, 3]))) ∧
    listMean (lastN 2 [1, 2, 3]) = 5 / 2 :=
  ⟨⟨by norm_num, by simp⟩,
   C1_windowed_average 2 [1, 2, 3] (by norm_num) (by simp),
   by norm_num [listMean, lastN]⟩

/-- C2: for every non-empty sequence of values added via `add_value`,
`get_global_average_value` returns total / count, the arithmetic mean of
all values ever added, independent of the window capacity. -/
theorem C2_global_average (w : ℕ) (vs : List ℚ) (hvs : vs ≠ []) :
    (addAll (SmoothedValue.init w) vs).get_global_average_value
      = PyResult.ok (listMean vs) := by
  obtain ⟨ht, hc, -, -⟩ := addAll_state w vs
  have hne : ¬ vs.length = 0 := by simpa using hvs
  simp [SmoothedValue.get_global_average_value, ht, hc, hne, listMean]

/-- Witness for C2 at capacity 2 with values 1, 2, 3: the global average is
the mean of all three values, 2, even though the window kept only two. -/
theorem C2_witness :
    (([1, 2, 3] : List ℚ) ≠ []) ∧
    ((addAll (SmoothedValue.init 2) [1, 2, 3]).get_global_average_value
       = PyResult.ok (listMean [1, 2, 3])) ∧
    listMean ([1, 2, 3] : List ℚ) = 2 :=
  ⟨by simp, C2_global_average 2 [1, 2, 3] (by simp), by norm_num [listMean]⟩

/-- C3: window eviction is strictly FIFO: after W + 1 additions to a fresh
tracker of capacity W the window is the input without its first element,
so the first value contributes to neither average nor median; concretely,
capacity 3 with additions 1, 2, 3, 4 gives window [2, 3, 4], windowed
average 3, windowed median 3 and global average 5/2. -/
theorem C3_fifo_eviction (w : ℕ) (vs : List ℚ) (h : vs.length = w + 1) :
    (addAll (SmoothedValue.init w) vs).deque = vs.drop 1 ∧
    (addAll (SmoothedValue.init w) vs).get_average_value = npMean (vs.drop 1) ∧
    (addAll (SmoothedValue.init w) vs).get_median_value = npMedian (vs.drop 1) ∧
    (addAll (SmoothedValue.init 3) [1, 2, 3, 4]).deque = [2, 3, 4] ∧
    (addAll (SmoothedValue.init 3) [1, 2, 3, 4]).get_average_value = PyResult.ok 3 ∧
    (addAll (SmoothedValue.init 3) [1, 2, 3, 4]).get_median_value = PyResult.ok 3 ∧
    (addAll (SmoothedValue.init 3) [1, 2, 3, 4]).get_global_average_value
      = PyResult.ok (5 / 2) := by
  obtain ⟨-, -, -, hd⟩ := addAll_state w vs
  have hdrop : lastN w vs = vs.drop 1 := by
    unfold lastN
    rw [h]
    congr 1
    omega
  refine ⟨hd.trans hdrop, ?_, ?_, ?_, ?_, ?_, ?_⟩
  · simp [SmoothedValue.get_average_value, hd, hdrop]
  · simp [SmoothedValue.get_median_value, hd, hdrop]
  · norm_num [addAll, SmoothedValue.add_value, SmoothedValue.init, dequeAppend]
  · norm_num [addAll, SmoothedValue.add_value, SmoothedValue.init, dequeAppend,
      SmoothedValue.get_average_value, npMean]
  · norm_num [addAll, SmoothedValue.add_value, SmoothedValue.init, dequeAppend,
      SmoothedValue.get_median_value, npMedian, List.insertionSort, List.orderedInsert]
  · norm_num [addAll, SmoothedValue.add_value, SmoothedValue.init, dequeAppend,
      SmoothedValue.get_global_average_value]

/-- Witness for C3 at capacity 3 with additions 1, 2, 3, 4. -/
theorem C3_witness :
    (([1, 2, 3, 4] : List ℚ).length = 3 + 1) ∧
    (addAll (SmoothedValue.init 3) [1, 2, 3, 4]).deque = ([1, 2, 3, 4] : List ℚ).drop 1 :=
  ⟨by simp, (C3_fifo_eviction 3 [1, 2, 3, 4] (by simp)).1⟩

/-- C4: after any sequence of `add_value` calls from the fresh state,
`total` is the sum of all values ever added, `count` their number,
`series` the full history, the window is the last min(N, count) elements
of the full history, and the window length never exceeds the capacity. -/
theorem C4_invariant (w : ℕ) (vs : List ℚ) :
    (addAll (SmoothedValue.init w) vs).total = vs.sum ∧
    (addAll (SmoothedValue.init w) vs).count = vs.length ∧
    (addAll (SmoothedValue.init w) vs).series = vs ∧
    (addAll (SmoothedValue.init w) vs).deque = lastN w vs ∧
    (addAll (SmoothedValue.init w) vs).deque.length
      = min w (addAll (SmoothedValue.init w) vs).count ∧
    (addAll (SmoothedValue.init w) vs).deque.length ≤ w := by
  obtain ⟨ht, hc, hs, hd⟩ := addAll_state w vs
  refine ⟨ht, hc, hs, hd, ?_, ?_⟩
  · simp [hd, lastN, hc]
    omega
  · simp [hd, lastN]
    omega

/-- C5 counterexample: on a fresh tracker with an empty window, both
`get_average_value` and `get_median_value` return NaN silently; no
exception is raised, contrary to the claim of an explicit error. -/
theorem C5_counterexample :
    (SmoothedValue.init 100).get_average_value = PyResult.nan ∧
    (SmoothedValue.init 100).get_median_value = PyResult.nan ∧
    PyResult.nan ≠ PyResult.zeroDivisionError ∧
    PyResult.nan ≠ PyResult.ok 0 :=
  ⟨rfl, rfl, by simp, by simp⟩

/-- C5 amended: calling `get_average_value` or `get_median_value` on a
tracker with an empty window returns NaN silently (the numpy behaviour on
an empty collection), not an explicit error and not 0. -/
theorem C5_amended_nan (s : SmoothedValue) (h : s.deque = []) :
    s.get_average_value = PyResult.nan ∧ s.get_median_value = PyResult.nan := by
  simp [SmoothedValue.get_average_value, SmoothedValue.get_median_value, npMean, npMedian, h]

/-- Witness for the amended C5 on a fresh tracker of capacity 100. -/
theorem C5_amended_witness :
    (SmoothedValue.init 100).deque = [] ∧
    ((SmoothedValue.init 100).get_average_value = PyResult.nan ∧
     (SmoothedValue.init 100).get_median_value = PyResult.nan) :=
  ⟨rfl, C5_amended_nan (SmoothedValue.init 100) rfl⟩

/-- C6: calling `get_global_average_value` on a tracker with count 0 raises
an explicit `ZeroDivisionError` and does not return 0 or NaN. -/
theorem C6_zero_division (s : SmoothedValue) (h : s.count = 0) :
    s.get_global_average_value = PyResult.zeroDivisionError ∧
    s.get_global_average_value ≠ PyResult.ok 0 ∧
    s.get_global_average_value ≠ PyResult.nan := by
  simp [SmoothedValue.get_global_average_value, h]

/-- Witness for C6 on a fresh tracker of capacity 7. -/
theorem C6_witness :
    (SmoothedValue.init 7).count = 0 ∧
    ((SmoothedValue.init 7).get_global_average_value = PyResult.zeroDivisionError ∧
     (SmoothedValue.init 7).get_global_average_value ≠ PyResult.ok 0 ∧
     (SmoothedValue.init 7).get_global_average_value ≠ PyResult.nan) :=
  ⟨rfl, C6_zero_division (SmoothedValue.init 7) rfl⟩

/-- C7: one registry call routes every input pair to the tracker of that
name, creating a fresh `SmoothedValue` of capacity 100 exactly when the
name is new, calls `add_value` on it, returns the snapshot mapping every
stored name to its windowed average after the additions, and never removes
a tracker. Input keys are pairwise distinct, as in a Python dict. -/
theorem C7_registry_routing (lg : Logger) (input : List (String × ℚ))
    (hnd : (input.map Prod.fst).Nodup) :
    (∀ k v, (k, v) ∈ input →
      alookup ((lg.create_or_get_smoothvalues input).1).smoothvalues k =
        some (((alookup lg.smoothvalues k).getD (SmoothedValue.init 100)).add_value v)) ∧
    (∀ k v, (k, v) ∈ input →
      alookup (lg.create_or_get_smoothvalues input).2 k =
        some ((((alookup lg.smoothvalues k).getD
          (SmoothedValue.init 100)).add_value v).get_average_value)) ∧
    ((lg.create_or_get_smoothvalues input).2 =
      ((lg.create_or_get_smoothvalues input).1).smoothvalues.map
        (fun kv => (kv.1, kv.2.get_average_value))) ∧
    (∀ k, (alookup lg.smoothvalues k).isSome →
      (alookup ((lg.create_or_get_smoothvalues input).1).smoothvalues k).isSome) := by
  refine ⟨?_, ?_, rfl, ?_⟩
  · intro k v hm
    exact foldl_processPair_mem input lg.smoothvalues k v hnd hm
  · intro k v hm
    rw [show (lg.create_or_get_smoothvalues input).2
          = ((input.foldl processPair lg.smoothvalues).map
              fun kv => (kv.1, kv.2.get_average_value)) from rfl]
    rw [alookup_map_value, foldl_processPair_mem input lg.smoothvalues k v hnd hm]
    rfl
  · intro k h
    rw [show ((lg.create_or_get_smoothvalues input).1).smoothvalues
          = input.foldl processPair lg.smoothvalues from rfl]
    rw [foldl_processPair_isSome_iff]
    exact Or.inl h

/-- Witness for C7: a fresh logger receiving one observation creates a
capacity-100 tracker for the new name and adds the value to it. -/
theorem C7_witness :
    (([("a", (1 : ℚ))].map Prod.fst).Nodup ∧ ("a", (1 : ℚ)) ∈ [("a", (1 : ℚ))] ∧
     alookup Logger.init.smoothvalues "a" = none) ∧
    alookup ((Logger.init.create_or_get_smoothvalues [("a", 1)]).1).smoothvalues "a" =
      some (((alookup Logger.init.smoothvalues "a").getD (SmoothedValue.init 100)).add_value 1) :=
  ⟨⟨by simp, by simp, rfl⟩,
   (C7_registry_routing Logger.init [("a", 1)] (by simp)).1 "a" 1 (by simp)⟩

/-- C8: the three query methods are read-only and idempotent: the post-call
state equals the pre-call state, and a repeated call returns the same
value. -/
theorem C8_queries_pure (s : SmoothedValue) :
    (s.get_average_value_call.2 = s ∧
     s.get_median_value_call.2 = s ∧
     s.get_global_average_value_call.2 = s) ∧
    (s.get_average_value_call.2.get_average_value_call.1 = s.get_average_value_call.1 ∧
     s.get_median_value_call.2.get_median_value_call.1 = s.get_median_value_call.1 ∧
     s.get_global_average_value_call.2.get_global_average_value_call.1
       = s.get_global_average_value_call.1) :=
  ⟨⟨rfl, rfl, rfl⟩, ⟨rfl, rfl, rfl⟩⟩

/-- C9: the snapshot returned by a registry call contains every metric name
ever observed by the logger since construction (and no other), not only
the names of the current input; a stored name absent from the current
input keeps its previous windowed average in the snapshot. -/
theorem C9_snapshot_all_names (history : List (List (String × ℚ)))
    (input : List (String × ℚ)) (k : String) :
    (k ∈ (((runCalls Logger.init history).create_or_get_smoothvalues input).2).map Prod.fst
       ↔ (∃ c ∈ history, k ∈ c.map Prod.fst) ∨ k ∈ input.map Prod.fst) ∧
    (∀ sv, alookup (runCalls Logger.init history).smoothvalues k = some sv →
      k ∉ input.map Prod.fst →
      alookup (((runCalls Logger.init history).create_or_get_smoothvalues input).2) k =
        some sv.get_average_value) := by
  constructor
  · rw [show (((runCalls Logger.init history).create_or_get_smoothvalues input).2)
          = ((input.foldl processPair (runCalls Logger.init history).smoothvalues).map
              fun kv => (kv.1, kv.2.get_average_value)) from rfl]
    rw [mem_keys_iff_isSome, alookup_map_value]
    rw [Option.isSome_map']
    rw [foldl_processPair_isSome_iff, runCalls_isSome_iff]
    simp [Logger.init, alookup]
  · intro sv hsv hnot
    rw [show (((runCalls Logger.init history).create_or_get_smoothvalues input).2)
          = ((input.foldl processPair (runCalls Logger.init history).smoothvalues).map
              fun kv => (kv.1, kv.2.get_average_value)) from rfl]
    rw [alookup_map_value, foldl_processPair_not_mem _ _ _ hnot, hsv]
    rfl

/-- Witness for C9: a name observed in an earlier call but absent from the
current input still appears in the snapshot, with its previous windowed
average. -/
theorem C9_witness :
    (alookup (runCalls Logger.init [[("a", (1 : ℚ))]]).smoothvalues "a"
       = some ((SmoothedValue.init 100).add_value 1) ∧
     "a" ∉ ([("b", (2 : ℚ))].map Prod.fst)) ∧
    alookup (((runCalls Logger.init [[("a", 1)]]).create_or_get_smoothvalues [("b", 2)]).2) "a"
      = some ((SmoothedValue.init 100).add_value 1).get_average_value :=
  ⟨⟨rfl, by simp⟩,
   (C9_snapshot_all_names [[("a", 1)]] [("b", 2)] "a").2
     ((SmoothedValue.init 100).add_value 1) rfl (by simp)⟩

/-- C10: for every non-empty window of even length, `get_median_value`
returns the arithmetic mean of the two middle elements of the window
sorted ascending, not either middle element alone. -/
theorem C10_even_median (s : SmoothedValue) (h1 : s.deque ≠ []) (h2 : s.deque.length % 2 = 0) :
    ∃ l : List ℚ, l.Perm s.deque ∧ l.Sorted (· ≤ ·) ∧
      s.get_median_value =
        PyResult.ok ((l.getD (s.deque.length / 2 - 1) 0 + l.getD (s.deque.length / 2) 0) / 2) := by
  refine ⟨s.deque.insertionSort (· ≤ ·), List.perm_insertionSort _ _,
    List.sorted_insertionSort _ _, ?_⟩
  have hne : ¬ s.deque.length = 0 := by simpa using h1
  have hodd : ¬ s.deque.length % 2 = 1 := by omega
  simp [SmoothedValue.get_median_value, npMedian, hne, hodd]

/-- Witness for C10 on the window 1, 4, 2, 3 of length 4. -/
theorem C10_witness :
    ((addAll (SmoothedValue.init 4) [1, 4, 2, 3]).deque ≠ [] ∧
     (addAll (SmoothedValue.init 4) [1, 4, 2, 3]).deque.length % 2 = 0) ∧
    ∃ l : List ℚ, l.Perm (addAll (SmoothedValue.init 4) [1, 4, 2, 3]).deque ∧
      l.Sorted (· ≤ ·) ∧
      (addAll (SmoothedValue.init 4) [1, 4, 2, 3]).get_median_value =
        PyResult.ok
          ((l.getD ((addAll (SmoothedValue.init 4) [1, 4, 2, 3]).deque.length / 2 - 1) 0 +
            l.getD ((addAll (SmoothedValue.init 4) [1, 4, 2, 3]).deque.length / 2) 0) / 2) :=
  ⟨⟨by decide, by decide⟩, C10_even_median _ (by decide) (by decide)⟩
